import Mathlib

/-
Verification development for the Citizenry scraping pipeline.

Shallow embedding of the two Python source files:
  * json-to-csv-converter.py : description/price cleaning, JSON-to-CSV conversion
  * citizenry_scraper.py     : HTTP retry client, URL discovery, keyword extraction,
                               filename cleaning, price formatting

Strings are modelled as `List Char`; Python string literals appear via `.data`.
Regex character classes and Python `str.split()` whitespace are modelled over
their ASCII behaviour.
-/

namespace Ethio

/-! ### Basic character predicates -/

/-- Whitespace characters recognised by Python `str.split()` / `str.strip()`
(space, tab, newline, carriage return, vertical tab, form feed; ASCII). -/
def pyIsSpace (c : Char) : Bool :=
  c = ' ' || c = '\t' || c = '\n' || c = '\r' || c = Char.ofNat 11 || c = Char.ofNat 12

/-- Characters in the regex class `\w` (ASCII behaviour): letters, digits, underscore. -/
def isWordChar (c : Char) : Bool :=
  c.isAlphanum || c = '_'

/-! ### Generic Python string operations on `List Char` -/

/-- `s.split(m)[0]` composed with the guard `if m in s`:
the prefix of `s` before the first occurrence of `m` (all of `s` when `m` does
not occur).  Used by the marker loop of `clean_description`. -/
def cutMarker (m : List Char) : List Char → List Char
  | [] => []
  | c :: rest =>
    if m.isPrefixOf (c :: rest) then [] else c :: cutMarker m rest

/-- Fuel-indexed body of Python `str.replace(pat, rep)`: replaces
non-overlapping occurrences of `pat` left to right, never rescanning the
replacement text.  Each step consumes at least one character, so fuel equal to
the length of the string is always sufficient. -/
def pyReplaceF (pat rep : List Char) : Nat → List Char → List Char
  | 0, s => s
  | _ + 1, [] => []
  | fuel + 1, c :: rest =>
    if pat ≠ [] ∧ pat.isPrefixOf (c :: rest) then
      rep ++ pyReplaceF pat rep fuel (rest.drop (pat.length - 1))
    else
      c :: pyReplaceF pat rep fuel rest

/-- Python `s.replace(pat, rep)`. -/
def pyReplace (pat rep s : List Char) : List Char :=
  pyReplaceF pat rep s.length s

/-- Accumulator-based scanner behind Python `s.split()` (split on whitespace
runs, dropping empty pieces).  `acc` holds the reversed current word. -/
def splitWsAux : List Char → List Char → List (List Char)
  | [], acc => if acc.isEmpty then [] else [acc.reverse]
  | c :: rest, acc =>
    if pyIsSpace c then
      if acc.isEmpty then splitWsAux rest []
      else acc.reverse :: splitWsAux rest []
    else
      splitWsAux rest (c :: acc)

/-- Python `s.split()` (no argument: split on whitespace runs). -/
def pySplitWs (s : List Char) : List (List Char) :=
  splitWsAux s []

/-- Python `' '.join(words)`. -/
def joinWords : List (List Char) → List Char
  | [] => []
  | [w] => w
  | w :: w' :: ws => w ++ ' ' :: joinWords (w' :: ws)

/-- `' '.join(s.split())`: collapse every whitespace run to a single space and
drop leading/trailing whitespace. -/
def normalizeWs (s : List Char) : List Char :=
  joinWords (pySplitWs s)

/-- Python `s.strip()`: drop leading and trailing whitespace. -/
def stripWs (s : List Char) : List Char :=
  (((s.dropWhile pyIsSpace).reverse).dropWhile pyIsSpace).reverse

/-! ### json-to-csv-converter.py -/

/-- The fixed, ordered marker list `sections_to_remove` of `clean_description`. -/
def sections_to_remove : List (List Char) :=
  [("### Story").data,
   ("### Product Details").data,
   ("### Care").data,
   ("### Shipping").data,
   ("### Returns").data,
   ("Customer Reviews").data,
   ("Write a Review").data,
   ("Shipping").data,
   ("Returns").data,
   ("Easy 30 Day Returns").data,
   ("In stock. Ready to ship.").data,
   ("Translation missing:").data,
   ("Add To Bag").data,
   ("Your email address").data,
   ("Want early access").data,
   ("Ships ").data,
   ("Most in-stock items").data,
   ("Exchanges and returns").data,
   ("White glove delivery").data,
   ("For more information").data,
   ("Customer Photos").data,
   ("Ask a Question").data,
   ("Based on").data,
   ("Reviews").data,
   ("Was this helpful?").data,
   ("United States").data,
   ("Loading more...").data,
   ("Filter Reviews:").data,
   ("Sort").data]

/-- The marker loop of `clean_description`: for each marker, in list order,
truncate the current text before the first occurrence of that marker. -/
def truncateDesc (s : List Char) : List Char :=
  sections_to_remove.foldl (fun acc m => cutMarker m acc) s

/-- Character offset of the first occurrence of `m` in `s` (`str.find`-style),
used to state the truncation rule the claim asserts. -/
def firstOcc (m : List Char) : List Char → Option Nat
  | [] => if m.isPrefixOf [] then some 0 else none
  | c :: rest =>
    if m.isPrefixOf (c :: rest) then some 0
    else (firstOcc m rest).map (· + 1)

/-- The truncation rule exactly as the claim words it (for comparison with the
source function `truncateDesc`): cut the text at the minimum first-occurrence offset
over all markers present in the text. -/
def specMinCut (s : List Char) : List Char :=
  match (sections_to_remove.filterMap (fun m => firstOcc m s)).min? with
  | none => s
  | some i => s.take i

/-- Worked example from the claim: a description with `Shipping` at offset 10 and
`### Care` at offset 50 (and no other marker). -/
def exampleDescC1 : List Char :=
  List.replicate 10 'a' ++ ("Shipping").data ++ List.replicate 32 'b' ++
    ("### Care").data ++ ("tail").data

/-- `clean_description` from json-to-csv-converter.py: truncate at the markers
in list order, then `replace('\n\n', ' ')`, `replace('\n', ' ')`,
`' '.join(split())`, and `strip()`.  Falsy (empty) input yields the empty
string. -/
def clean_description (description : List Char) : List Char :=
  if description = [] then []
  else
    stripWs (normalizeWs (pyReplace ['\n'] [' ']
      (pyReplace ['\n', '\n'] [' '] (truncateDesc description))))

/-- Decidable test: no boilerplate marker occurs in `s`. -/
def noMarkerIn (s : List Char) : Bool :=
  sections_to_remove.all (fun m => decide (¬ m <:+: s))

/-- `clean_price` from json-to-csv-converter.py: falsy input maps to the empty
string; otherwise `price.replace(' (was null)', '')`. -/
def clean_price (price : List Char) : List Char :=
  if price = [] then []
  else pyReplace (" (was null)").data [] price

/-- The seven fields the converter reads from each JSON product object
(`product.get(key, '')`; missing keys default to the empty string). -/
structure ProductJson where
  name : List Char
  price : List Char
  description : List Char
  originalUrl : List Char
  keywords : List Char
  stretchGoals : List Char
  altSizes : List Char
deriving DecidableEq

/-- The fixed CSV header of the converter (`fieldnames`). -/
def converter_fieldnames : List (List Char) :=
  [("Name").data,
   ("Price").data,
   ("Description of product").data,
   ("Original URL").data,
   ("Keywords").data,
   ("Stretch goals").data,
   ("Alternative sizes or colors available").data]

/-- One CSV data row of the converter, in header order. -/
def rowOf (p : ProductJson) : List (List Char) :=
  [p.name,
   clean_price p.price,
   clean_description p.description,
   p.originalUrl,
   p.keywords,
   p.stretchGoals,
   p.altSizes]

/-- `convert_citizenry_json_to_csv` with file I/O abstracted to the parsed
product list and the emitted CSV rows.  An empty product list makes the
function return before opening the output file (`if not products: return`),
modelled as `none`; otherwise the emitted CSV is the header row followed by
one data row per product, in input order. -/
def convert_citizenry_json_to_csv (products : List ProductJson) :
    Option (List (List (List Char))) :=
  if products.isEmpty then none
  else some (converter_fieldnames :: products.map rowOf)

/-! ### citizenry_scraper.py : HTTP retry client -/

/-- Outcome of one `requests.post` call inside `make_request_with_retry`:
either a response with an HTTP status code and an optional numeric
`Retry-After` header, or a raised `RequestException`. -/
inductive ApiResponse where
  | ok (code : Nat) (retryAfter : Option Nat)
  | exn
deriving DecidableEq

/-- The `for attempt in range(max_retries)` loop of `make_request_with_retry`.
`r` gives the outcome of the network call on each attempt index.  The result
records the returned response (if any), the number of attempts consumed, and
the total seconds slept: 429 sleeps the `Retry-After` value (default 30),
5xx and transport failures sleep `30 * 2 ^ attempt`. -/
def retryLoop (r : Nat → ApiResponse) : Nat → Nat → Option Nat × Nat × Nat
  | _, 0 => (none, 0, 0)
  | attempt, fuel + 1 =>
    match r attempt with
    | .exn =>
      let rest := retryLoop r (attempt + 1) fuel
      (rest.1, rest.2.1 + 1, rest.2.2 + 30 * 2 ^ attempt)
    | .ok code ra =>
      if code = 429 then
        let rest := retryLoop r (attempt + 1) fuel
        (rest.1, rest.2.1 + 1, rest.2.2 + ra.getD 30)
      else if 500 ≤ code then
        let rest := retryLoop r (attempt + 1) fuel
        (rest.1, rest.2.1 + 1, rest.2.2 + 30 * 2 ^ attempt)
      else
        (some code, 1, 0)

/-- `make_request_with_retry(url, payload, max_retries)`: run the retry loop
from attempt 0; exhausting the budget yields `none`. -/
def make_request_with_retry (r : Nat → ApiResponse) (max_retries : Nat := 3) :
    Option Nat × Nat × Nat :=
  retryLoop r 0 max_retries

/-! ### citizenry_scraper.py : URL discovery -/

/-- `BASE_URL` of the scraper. -/
def BASE_URL : List Char := ("https://www.the-citizenry.com").data

/-- The product path segment both discovery functions test for. -/
def PRODUCTS_SEG : List Char := ("/products/").data

/-- `if url.startswith('/'): url = BASE_URL + url`. -/
def absolutizeIfRooted (u : List Char) : List Char :=
  if u.head? = some '/' then BASE_URL ++ u else u

/-- `set.add`, modelled on lists preserving insertion order. -/
def addUnique (xs : List (List Char)) (x : List Char) : List (List Char) :=
  if x ∈ xs then xs else xs ++ [x]

/-- Inner loop of `discover_product_urls` over the URL list of one collection page:
skip falsy entries, absolutize root-relative URLs, keep those containing
`/products/`, and add them to the accumulated set. -/
def collectUrls (acc : List (List Char)) (urls : List (List Char)) : List (List Char) :=
  urls.foldl
    (fun a u =>
      if u = [] then a
      else
        let u2 := absolutizeIfRooted u
        if PRODUCTS_SEG <:+: u2 then addUnique a u2 else a)
    acc

/-- `url.split('?')[0]`: the prefix before the first `?`. -/
def stripQuery (u : List Char) : List Char :=
  u.takeWhile (fun c => c ≠ '?')

/-- Second pass of `discover_product_urls`: strip query strings and
deduplicate again. -/
def dedupStrip (urls : List (List Char)) : List (List Char) :=
  urls.foldl (fun a u => addUnique a (stripQuery u)) []

/-- `discover_fallback_urls`, with the network abstracted to the URL list the
API returned for the site root: keep truthy URLs containing `/products/`,
absolutize root-relative ones, and append them (no deduplication, no query
stripping). -/
def discover_fallback_urls (urls : List (List Char)) : List (List Char) :=
  urls.foldl
    (fun a u =>
      if u ≠ [] ∧ PRODUCTS_SEG <:+: u then a ++ [absolutizeIfRooted u]
      else a)
    []

/-- `discover_product_urls`, with the network abstracted to the per-collection
URL lists the API returned (`pages`) and the URL list of the fallback page: collect
from every collection into a set; if that set is empty, fall back to
`discover_fallback_urls`; otherwise strip query strings and deduplicate. -/
def discover_product_urls (pages : List (List (List Char)))
    (fallback : List (List Char)) : List (List Char) :=
  let collected := pages.foldl collectUrls []
  if collected = [] then discover_fallback_urls fallback
  else dedupStrip collected

/-! ### citizenry_scraper.py : keyword extraction, filenames, price display -/

/-- The fixed keyword vocabulary of `extract_keywords`, in source order. -/
def KEYWORDS : List (List Char) :=
  [("Fairtrade").data,
   ("FSC").data,
   ("Handmade").data,
   ("Artisan").data,
   ("Sustainable").data,
   ("Organic").data,
   ("Eco-friendly").data]

/-- Python `str.lower()` (ASCII behaviour). -/
def pyLower (s : List Char) : List Char :=
  s.map Char.toLower

/-- `extract_keywords`: falsy text yields `[]`; otherwise the vocabulary
entries whose lowercase form occurs in the lowercase text, in vocabulary
order. -/
def extract_keywords (text : List Char) : List (List Char) :=
  if text = [] then []
  else KEYWORDS.filter (fun k => pyLower k <:+: pyLower text)

/-- `clean_filename`: falsy name maps to `"unknown_product"`; otherwise strip
characters outside `[\w\s-]`, collapse every `[-\s]+` run to one underscore,
and truncate to 50 characters.  `collapseGo` carries whether the scanner is
inside a separator run. -/
def collapseGo : Bool → List Char → List Char
  | _, [] => []
  | inRun, c :: rest =>
    if pyIsSpace c || c = '-' then
      if inRun then collapseGo true rest
      else '_' :: collapseGo true rest
    else
      c :: collapseGo false rest

/-- `re.sub(r'[^\w\s-]', '', name)`: keep word characters, whitespace, hyphen. -/
def stripNonWord (name : List Char) : List Char :=
  name.filter (fun c => isWordChar c || pyIsSpace c || c = '-')

/-- `clean_filename` from citizenry_scraper.py. -/
def clean_filename (name : List Char) : List Char :=
  if name = [] then ("unknown_product").data
  else (collapseGo false (stripNonWord name)).take 50

/-- The price-display logic of `scrape_product`: `original` is `none` for a
JSON `null`/missing field and `some []` for an empty string (both falsy in
Python). -/
def format_price (current : List Char) (original : Option (List Char)) : List Char :=
  match original with
  | none => current
  | some o =>
    if o ≠ [] ∧ o ≠ current then current ++ (" (was ").data ++ o ++ [')']
    else current

/-- The CSV header used by `save_to_csv` in the scraper. -/
def scraper_fieldnames : List (List Char) :=
  [("Name").data,
   ("Price").data,
   ("Description of product").data,
   ("Original URL").data,
   ("Keywords").data,
   ("Stretch goals").data,
   ("Alternative sizes or colors available").data]

/-- The keys of the record dictionary `scrape_product` returns, in source
order: the CSV fields plus `Image Path` (the latter appears only in the JSON
export). -/
def scraper_record_keys : List (List Char) :=
  [("Name").data,
   ("Price").data,
   ("Description of product").data,
   ("Original URL").data,
   ("Keywords").data,
   ("Stretch goals").data,
   ("Alternative sizes or colors available").data,
   ("Image Path").data]

/-! ### Lemmas: marker truncation -/

theorem cutMarker_isPre (m : List Char) : ∀ s, cutMarker m s <+: s := by
  intro s
  induction s with
  | nil => simp [cutMarker]
  | cons c rest ih =>
    rw [cutMarker]
    by_cases h : m.isPrefixOf (c :: rest)
    · simp [h]
    · simpa [h] using ih

theorem not_infix_cutMarker (m : List Char) (hm : m ≠ []) :
    ∀ s, ¬ m <:+: cutMarker m s := by
  intro s
  induction s with
  | nil =>
    simp only [cutMarker]
    intro h
    exact hm (List.sublist_nil.mp h.sublist)
  | cons c rest ih =>
    rw [cutMarker]
    by_cases h : m.isPrefixOf (c :: rest)
    · simp only [h, if_true]
      intro hinf
      exact hm (List.sublist_nil.mp hinf.sublist)
    · simp only [h, if_false]
      intro hinf
      rcases List.infix_cons_iff.mp hinf with hpre | hinf2
      · apply h
        apply List.isPrefixOf_iff_prefix.mpr
        obtain ⟨t, ht⟩ := cutMarker_isPre m rest
        exact hpre.trans ⟨t, by simp [ht]⟩
      · exact ih hinf2

theorem cutMarker_eq_self (m s : List Char) (h : ¬ m <:+: s) : cutMarker m s = s := by
  induction s with
  | nil => simp [cutMarker]
  | cons c rest ih =>
    rw [cutMarker]
    have h1 : ¬ m.isPrefixOf (c :: rest) := by
      intro hp
      have hp2 := List.isPrefixOf_iff_prefix.mp hp
      exact h hp2.isInfix
    have h2 : ¬ m <:+: rest := by
      intro hi
      rcases hi with ⟨u, v, huv⟩
      exact h ⟨c :: u, v, by simp [huv]⟩
    simp [h1, ih h2]

theorem foldCut_isPre (ms : List (List Char)) :
    ∀ s, ms.foldl (fun acc m => cutMarker m acc) s <+: s := by
  induction ms with
  | nil => intro s; simp
  | cons m ms ih =>
    intro s
    simpa using (ih (cutMarker m s)).trans (cutMarker_isPre m s)

theorem not_infix_foldCut (ms : List (List Char)) (hms : ∀ m ∈ ms, m ≠ []) :
    ∀ s, ∀ m ∈ ms, ¬ m <:+: ms.foldl (fun acc m => cutMarker m acc) s := by
  induction ms with
  | nil => intro s m hm; simp at hm
  | cons m₀ ms ih =>
    intro s m hm
    simp only [List.foldl_cons]
    rcases List.mem_cons.mp hm with rfl | hmem
    · intro hinf
      have hpre2 := foldCut_isPre ms (cutMarker m s)
      exact not_infix_cutMarker m (hms m (by simp)) s (hinf.trans hpre2.isInfix)
    · exact ih (fun x hx => hms x (List.mem_cons_of_mem _ hx)) (cutMarker m₀ s) m hmem

theorem foldCut_eq_self (ms : List (List Char)) :
    ∀ s, (∀ m ∈ ms, ¬ m <:+: s) → ms.foldl (fun acc m => cutMarker m acc) s = s := by
  induction ms with
  | nil => intro s _; simp
  | cons m₀ ms ih =>
    intro s hs
    simp only [List.foldl_cons]
    rw [cutMarker_eq_self m₀ s (hs m₀ (by simp))]
    exact ih s (fun m hm => hs m (List.mem_cons_of_mem _ hm))

theorem truncateDesc_isPre (s : List Char) : truncateDesc s <+: s :=
  foldCut_isPre sections_to_remove s

theorem not_infix_truncateDesc (s : List Char) :
    ∀ m ∈ sections_to_remove, ¬ m <:+: truncateDesc s :=
  not_infix_foldCut sections_to_remove (by decide) s

theorem truncateDesc_eq_self (s : List Char)
    (h : ∀ m ∈ sections_to_remove, ¬ m <:+: s) : truncateDesc s = s :=
  foldCut_eq_self sections_to_remove s h

/-! ### Lemmas: replace -/

theorem pyReplaceF_eq_self (pat rep : List Char) :
    ∀ fuel s, ¬ pat <:+: s → pyReplaceF pat rep fuel s = s := by
  intro fuel
  induction fuel with
  | zero => intro s _; rfl
  | succ n ih =>
    intro s hs
    match s with
    | [] => rfl
    | c :: rest =>
      rw [pyReplaceF]
      have h1 : ¬ (pat ≠ [] ∧ pat.isPrefixOf (c :: rest)) := by
        rintro ⟨-, hp⟩
        have hp2 := List.isPrefixOf_iff_prefix.mp hp
        exact hs hp2.isInfix
      have h2 : ¬ pat <:+: rest := by
        intro hi
        rcases hi with ⟨u, v, huv⟩
        exact hs ⟨c :: u, v, by simp [huv]⟩
      rw [if_neg h1, ih rest h2]

theorem pyReplace_eq_self (pat rep s : List Char) (h : ¬ pat <:+: s) :
    pyReplace pat rep s = s :=
  pyReplaceF_eq_self pat rep s.length s h

/-! ### Lemmas: whitespace normalization -/

theorem splitWsAux_spacefree :
    ∀ s acc, (∀ c ∈ acc, pyIsSpace c = false) →
      ∀ w ∈ splitWsAux s acc, ∀ c ∈ w, pyIsSpace c = false := by
  intro s
  induction s with
  | nil =>
    intro acc hacc w hw
    cases acc with
    | nil => simp [splitWsAux] at hw
    | cons b bs =>
      simp only [splitWsAux, List.isEmpty_cons, Bool.false_eq_true, if_false,
        List.mem_singleton] at hw
      subst hw
      intro c hc
      exact hacc c (List.mem_reverse.mp hc)
  | cons a rest ih =>
    intro acc hacc w hw
    rw [splitWsAux] at hw
    by_cases hsp : pyIsSpace a
    · rw [if_pos hsp] at hw
      cases acc with
      | nil =>
        simp only [List.isEmpty_nil, if_true] at hw
        exact ih [] (by simp) w hw
      | cons b bs =>
        simp only [List.isEmpty_cons, Bool.false_eq_true, if_false] at hw
        rcases List.mem_cons.mp hw with rfl | hw
        · intro c hc
          exact hacc c (List.mem_reverse.mp hc)
        · exact ih [] (by simp) w hw
    · rw [if_neg hsp] at hw
      refine ih (a :: acc) ?_ w hw
      intro c hc
      rcases List.mem_cons.mp hc with rfl | hc
      · simpa using hsp
      · exact hacc c hc

theorem splitWsAux_ne_nil :
    ∀ s acc, ∀ w ∈ splitWsAux s acc, w ≠ [] := by
  intro s
  induction s with
  | nil =>
    intro acc w hw
    cases acc with
    | nil => simp [splitWsAux] at hw
    | cons b bs =>
      simp only [splitWsAux, List.isEmpty_cons, Bool.false_eq_true, if_false,
        List.mem_singleton] at hw
      subst hw
      simp
  | cons a rest ih =>
    intro acc w hw
    rw [splitWsAux] at hw
    by_cases hsp : pyIsSpace a
    · rw [if_pos hsp] at hw
      cases acc with
      | nil =>
        simp only [List.isEmpty_nil, if_true] at hw
        exact ih [] w hw
      | cons b bs =>
        simp only [List.isEmpty_cons, Bool.false_eq_true, if_false] at hw
        rcases List.mem_cons.mp hw with rfl | hw
        · simp
        · exact ih [] w hw
    · rw [if_neg hsp] at hw
      exact ih (a :: acc) w hw

theorem joinWords_chars :
    ∀ ws, (∀ w ∈ ws, ∀ c ∈ w, pyIsSpace c = false) →
      ∀ c ∈ joinWords ws, c = ' ' ∨ pyIsSpace c = false := by
  intro ws
  induction ws with
  | nil => intro _ c hc; simp [joinWords] at hc
  | cons w ws ih =>
    intro hws c hc
    cases ws with
    | nil =>
      right
      exact hws w (by simp) c (by simpa [joinWords] using hc)
    | cons w' ws' =>
      rw [joinWords] at hc
      rcases List.mem_append.mp hc with hc | hc
      · right; exact hws w (by simp) c hc
      · rcases List.mem_cons.mp hc with rfl | hc
        · left; rfl
        · exact ih (fun x hx => hws x (List.mem_cons_of_mem _ hx)) c hc

theorem joinWords_ne_nil (w : List Char) (ws : List (List Char)) (hw : w ≠ []) :
    joinWords (w :: ws) ≠ [] := by
  cases ws with
  | nil => simpa [joinWords] using hw
  | cons w' ws' =>
    rw [joinWords]
    exact List.append_ne_nil_of_left_ne_nil hw _

theorem getLast?_mem_of_eq (l : List Char) (c : Char) (h : l.getLast? = some c) : c ∈ l := by
  rcases List.mem_getLast?_eq_getLast (Option.mem_def.mpr h) with ⟨hne, rfl⟩
  exact List.getLast_mem hne

theorem joinWords_getLast_nonspace :
    ∀ ws, ws ≠ [] → (∀ w ∈ ws, w ≠ []) →
      (∀ w ∈ ws, ∀ c ∈ w, pyIsSpace c = false) →
      ∃ c, (joinWords ws).getLast? = some c ∧ pyIsSpace c = false := by
  intro ws
  induction ws with
  | nil => intro h; exact absurd rfl h
  | cons w ws ih =>
    intro _ hne hsf
    cases ws with
    | nil =>
      have hw : w ≠ [] := hne w (by simp)
      obtain ⟨c, hc⟩ := Option.isSome_iff_exists.mp (List.getLast?_isSome.mpr hw)
      refine ⟨c, by simpa [joinWords] using hc, ?_⟩
      exact hsf w (by simp) c (getLast?_mem_of_eq w c hc)
    | cons w' ws' =>
      obtain ⟨c, hc, hcs⟩ := ih (by simp)
        (fun x hx => hne x (List.mem_cons_of_mem _ hx))
        (fun x hx => hsf x (List.mem_cons_of_mem _ hx))
      refine ⟨c, ?_, hcs⟩
      rw [joinWords, List.getLast?_append_of_ne_nil w (by simp)]
      have hne' : joinWords (w' :: ws') ≠ [] :=
        joinWords_ne_nil w' ws' (hne w' (by simp))
      rw [List.getLast?_cons, hc]
      simp

theorem splitWsAux_scan_word :
    ∀ w s acc, (∀ c ∈ w, pyIsSpace c = false) →
      splitWsAux (w ++ s) acc = splitWsAux s (w.reverse ++ acc) := by
  intro w
  induction w with
  | nil => intro s acc _; simp
  | cons a w ih =>
    intro s acc hsf
    have ha : pyIsSpace a = false := hsf a (by simp)
    rw [List.cons_append, splitWsAux, if_neg (by simp [ha])]
    rw [ih s (a :: acc) (fun c hc => hsf c (List.mem_cons_of_mem _ hc))]
    simp

theorem split_join :
    ∀ ws, (∀ w ∈ ws, w ≠ []) → (∀ w ∈ ws, ∀ c ∈ w, pyIsSpace c = false) →
      splitWsAux (joinWords ws) [] = ws := by
  intro ws
  induction ws with
  | nil => intro _ _; simp [joinWords, splitWsAux]
  | cons w ws ih =>
    intro hne hsf
    have hw : w ≠ [] := hne w (by simp)
    have hwsf : ∀ c ∈ w, pyIsSpace c = false := hsf w (by simp)
    have hrev : (w.reverse ++ ([] : List Char)).isEmpty = false := by
      simp only [List.append_nil]
      exact List.isEmpty_eq_false.mpr (by simpa using hw)
    cases ws with
    | nil =>
      rw [joinWords]
      have h1 : splitWsAux (w ++ []) [] = splitWsAux [] (w.reverse ++ []) :=
        splitWsAux_scan_word w [] [] hwsf
      simp only [List.append_nil] at h1 hrev
      rw [h1, splitWsAux]
      simp [hrev]
    | cons w' ws' =>
      rw [joinWords, splitWsAux_scan_word w _ [] hwsf, splitWsAux]
      rw [if_pos (show pyIsSpace ' ' = true by decide)]
      simp only [List.append_nil] at hrev
      rw [if_neg (by simp [hrev])]
      rw [ih (fun x hx => hne x (List.mem_cons_of_mem _ hx))
        (fun x hx => hsf x (List.mem_cons_of_mem _ hx))]
      simp

theorem normalizeWs_idem (s : List Char) : normalizeWs (normalizeWs s) = normalizeWs s := by
  unfold normalizeWs pySplitWs
  rw [split_join (splitWsAux s []) (splitWsAux_ne_nil s [])
    (splitWsAux_spacefree s [] (by simp))]

theorem normalizeWs_mem (s : List Char) :
    ∀ c ∈ normalizeWs s, c = ' ' ∨ pyIsSpace c = false := by
  intro c hc
  exact joinWords_chars (pySplitWs s) (splitWsAux_spacefree s [] (by simp)) c hc

theorem dropWhile_eq_self_of_head (p : Char → Bool) (s : List Char) (c : Char)
    (hc : s.head? = some c) (hp : p c = false) : s.dropWhile p = s := by
  match s with
  | [] => simp at hc
  | d :: t =>
    simp only [List.head?_cons, Option.some_inj] at hc
    subst hc
    simp [List.dropWhile_cons, hp]

theorem joinWords_head (c : Char) (w : List Char) (ws : List (List Char)) :
    (joinWords ((c :: w) :: ws)).head? = some c := by
  cases ws with
  | nil => simp [joinWords]
  | cons w' ws' => simp [joinWords]

theorem stripWs_normalizeWs (s : List Char) : stripWs (normalizeWs s) = normalizeWs s := by
  have hne := splitWsAux_ne_nil s []
  have hsf := splitWsAux_spacefree s [] (by simp)
  unfold normalizeWs pySplitWs
  cases hws : splitWsAux s [] with
  | nil => simp [joinWords, stripWs]
  | cons w ws =>
    rw [hws] at hne hsf
    have hw : w ≠ [] := hne w (by simp)
    obtain ⟨c, w', rfl⟩ : ∃ c w', w = c :: w' := by
      cases w with
      | nil => exact absurd rfl hw
      | cons c w' => exact ⟨c, w', rfl⟩
    unfold stripWs
    have hc : pyIsSpace c = false := hsf (c :: w') (by simp) c (by simp)
    rw [dropWhile_eq_self_of_head pyIsSpace _ c (joinWords_head c w' ws) hc]
    obtain ⟨d, hd, hds⟩ := joinWords_getLast_nonspace ((c :: w') :: ws) (by simp) hne hsf
    rw [dropWhile_eq_self_of_head pyIsSpace _ d (by rw [List.head?_reverse]; exact hd) hds]
    simp

/-! ### Lemmas: clean_description idempotence -/

theorem clean_description_eq (s : List Char) (hs : s ≠ []) :
    clean_description s = stripWs (normalizeWs (pyReplace ['\n'] [' ']
      (pyReplace ['\n', '\n'] [' '] (truncateDesc s)))) := by
  rw [clean_description, if_neg hs]

theorem noMarkerIn_iff (s : List Char) :
    noMarkerIn s = true ↔ ∀ m ∈ sections_to_remove, ¬ m <:+: s := by
  simp [noMarkerIn, List.all_eq_true]

theorem clean_description_idem_of_no_marker (d : List Char)
    (h : noMarkerIn (clean_description d) = true) :
    clean_description (clean_description d) = clean_description d := by
  have h' : ∀ m ∈ sections_to_remove, ¬ m <:+: clean_description d :=
    (noMarkerIn_iff _).mp h
  by_cases hd : d = []
  · subst hd
    simp [clean_description]
  · have hcd : clean_description d =
        normalizeWs (pyReplace ['\n'] [' '] (pyReplace ['\n', '\n'] [' '] (truncateDesc d))) := by
      rw [clean_description_eq d hd, stripWs_normalizeWs]
    by_cases hc : clean_description d = []
    · rw [hc]
      simp [clean_description]
    · have hnl : ('\n') ∉ clean_description d := by
        intro hmem
        rw [hcd] at hmem
        rcases normalizeWs_mem _ '\n' hmem with h1 | h1
        · exact absurd h1 (by decide)
        · exact absurd h1 (by decide)
      have h2 : pyReplace ['\n', '\n'] [' '] (clean_description d) = clean_description d :=
        pyReplace_eq_self _ _ _ (fun hinf => hnl (hinf.subset (by simp)))
      have h3 : pyReplace ['\n'] [' '] (clean_description d) = clean_description d :=
        pyReplace_eq_self _ _ _ (fun hinf => hnl (hinf.subset (by simp)))
      rw [clean_description_eq _ hc, truncateDesc_eq_self _ h', h2, h3, hcd,
        normalizeWs_idem, stripWs_normalizeWs]

/-! ### Lemmas: retry client -/

theorem retryLoop_returns_now (r : Nat → ApiResponse) (k fuel c : Nat) (ra : Option Nat)
    (hfuel : 0 < fuel) (hr : r k = .ok c ra) (h429 : c ≠ 429) (h500 : ¬ 500 ≤ c) :
    retryLoop r k fuel = (some c, 1, 0) := by
  obtain ⟨f, rfl⟩ : ∃ f, fuel = f + 1 := ⟨fuel - 1, by omega⟩
  rw [retryLoop, hr]
  simp [h429, h500]

/-! ### Lemmas: URL discovery -/

theorem mem_addUnique {xs : List (List Char)} {x y : List Char}
    (h : x ∈ addUnique xs y) : x ∈ xs ∨ x = y := by
  unfold addUnique at h
  by_cases hy : y ∈ xs
  · rw [if_pos hy] at h
    exact Or.inl h
  · rw [if_neg hy] at h
    rcases List.mem_append.mp h with h | h
    · exact Or.inl h
    · exact Or.inr (List.mem_singleton.mp h)

theorem infix_absolutize {m u : List Char} (h : m <:+: u) :
    m <:+: absolutizeIfRooted u := by
  unfold absolutizeIfRooted
  by_cases hu : u.head? = some '/'
  · rw [if_pos hu]
    exact h.trans ⟨BASE_URL, [], by simp⟩
  · rw [if_neg hu]
    exact h

theorem collectUrls_mem {urls : List (List Char)} :
    ∀ {acc x}, x ∈ collectUrls acc urls → x ∈ acc ∨ PRODUCTS_SEG <:+: x := by
  induction urls with
  | nil => intro acc x h; exact Or.inl h
  | cons u us ih =>
    intro acc x h
    rw [collectUrls, List.foldl_cons] at h
    rcases ih h with hin | hseg
    · by_cases hu : u = []
      · rw [if_pos hu] at hin
        exact Or.inl hin
      · rw [if_neg hu] at hin
        by_cases hseg2 : PRODUCTS_SEG <:+: absolutizeIfRooted u
        · simp only [hseg2, if_true] at hin
          rcases mem_addUnique hin with hin | rfl
          · exact Or.inl hin
          · exact Or.inr hseg2
        · simp only [hseg2, if_false] at hin
          exact Or.inl hin
    · exact Or.inr hseg

theorem pagesFold_mem {pages : List (List (List Char))} :
    ∀ {acc x}, x ∈ pages.foldl collectUrls acc → x ∈ acc ∨ PRODUCTS_SEG <:+: x := by
  induction pages with
  | nil => intro acc x h; exact Or.inl h
  | cons p ps ih =>
    intro acc x h
    rw [List.foldl_cons] at h
    rcases ih h with hin | hseg
    · exact collectUrls_mem hin
    · exact Or.inr hseg

theorem dedupStripFold_mem {urls : List (List Char)} :
    ∀ {acc x}, x ∈ urls.foldl (fun a u => addUnique a (stripQuery u)) acc →
      x ∈ acc ∨ ∃ v ∈ urls, x = stripQuery v := by
  induction urls with
  | nil => intro acc x h; exact Or.inl h
  | cons u us ih =>
    intro acc x h
    rw [List.foldl_cons] at h
    rcases ih h with hin | ⟨v, hv, rfl⟩
    · rcases mem_addUnique hin with hin | rfl
      · exact Or.inl hin
      · exact Or.inr ⟨u, by simp, rfl⟩
    · exact Or.inr ⟨v, List.mem_cons_of_mem _ hv, rfl⟩

theorem dedupStrip_mem {urls : List (List Char)} {x : List Char}
    (h : x ∈ dedupStrip urls) : ∃ v ∈ urls, x = stripQuery v := by
  rcases dedupStripFold_mem h with hin | hex
  · simp at hin
  · exact hex

theorem fallbackFold_mem {urls : List (List Char)} :
    ∀ {acc x},
      x ∈ urls.foldl
        (fun a u => if u ≠ [] ∧ PRODUCTS_SEG <:+: u then a ++ [absolutizeIfRooted u] else a)
        acc →
      x ∈ acc ∨ PRODUCTS_SEG <:+: x := by
  induction urls with
  | nil => intro acc x h; exact Or.inl h
  | cons u us ih =>
    intro acc x h
    rw [List.foldl_cons] at h
    rcases ih h with hin | hseg
    · by_cases hu : u ≠ [] ∧ PRODUCTS_SEG <:+: u
      · rw [if_pos hu] at hin
        rcases List.mem_append.mp hin with hin | hin
        · exact Or.inl hin
        · rw [List.mem_singleton.mp hin]
          exact Or.inr (infix_absolutize hu.2)
      · rw [if_neg hu] at hin
        exact Or.inl hin
    · exact Or.inr hseg

theorem stripQuery_no_qmark (v : List Char) : ('?') ∉ stripQuery v := by
  intro hmem
  have := List.mem_takeWhile_imp hmem
  simp at this

/-! ### Lemmas: keyword extraction -/

theorem extract_keywords_sublist (t : List Char) :
    List.Sublist (extract_keywords t) KEYWORDS := by
  unfold extract_keywords
  by_cases ht : t = []
  · rw [if_pos ht]
    exact List.nil_sublist _
  · rw [if_neg ht]
    exact List.filter_sublist _

theorem mem_extract_keywords (t k : List Char) :
    k ∈ extract_keywords t ↔ k ∈ KEYWORDS ∧ pyLower k <:+: pyLower t := by
  unfold extract_keywords
  by_cases ht : t = []
  · rw [if_pos ht]
    simp only [List.not_mem_nil, false_iff]
    rintro ⟨hk, hinf⟩
    subst ht
    have hne : pyLower k ≠ [] := by
      have hall : ∀ x ∈ KEYWORDS, pyLower x ≠ [] := by decide
      exact hall k hk
    simp only [pyLower, List.map_nil] at hinf
    exact hne (List.sublist_nil.mp hinf.sublist)
  · rw [if_neg ht]
    simp [List.mem_filter]

/-! ### Lemmas: filename cleaning -/

theorem collapseGo_chars :
    ∀ s b, ∀ c ∈ collapseGo b s, c = '_' ∨ (c ∈ s ∧ pyIsSpace c = false ∧ c ≠ '-') := by
  intro s
  induction s with
  | nil => intro b c hc; simp [collapseGo] at hc
  | cons a rest ih =>
    intro b c hc
    rw [collapseGo] at hc
    by_cases hsep : pyIsSpace a || a = '-'
    · rw [if_pos hsep] at hc
      cases b with
      | true =>
        simp only [if_true] at hc
        rcases ih true c hc with h | ⟨hmem, h1, h2⟩
        · exact Or.inl h
        · exact Or.inr ⟨List.mem_cons_of_mem _ hmem, h1, h2⟩
      | false =>
        simp only [Bool.false_eq_true, if_false] at hc
        rcases List.mem_cons.mp hc with rfl | hc
        · exact Or.inl rfl
        · rcases ih true c hc with h | ⟨hmem, h1, h2⟩
          · exact Or.inl h
          · exact Or.inr ⟨List.mem_cons_of_mem _ hmem, h1, h2⟩
    · rw [if_neg hsep] at hc
      simp only [Bool.or_eq_true, not_or, Bool.not_eq_true, decide_eq_true_eq] at hsep
      rcases List.mem_cons.mp hc with rfl | hc
      · exact Or.inr ⟨by simp, hsep.1, hsep.2⟩
      · rcases ih false c hc with h | ⟨hmem, h1, h2⟩
        · exact Or.inl h
        · exact Or.inr ⟨List.mem_cons_of_mem _ hmem, h1, h2⟩

theorem clean_price_eq (s : List Char) (hs : s ≠ []) :
    clean_price s = pyReplace ((" (was null)").data) [] s := by
  rw [clean_price, if_neg hs]

/-! ### Claims -/

/-- Claim C1, counterexample: the marker loop of `clean_description` does not
truncate at the minimum first-occurrence offset over all markers.  In
`"X Easy 30 Day Returns Y"` the earliest marker occurrence is
`Easy 30 Day Returns` at offset 2, but the loop first cuts at `Returns`
(offset 14, earlier in the marker list), destroying the longer marker's
occurrence, so the retained text ends at offset 14, not 2. -/
theorem C1_counterexample :
    firstOcc (("Easy 30 Day Returns").data) (("X Easy 30 Day Returns Y").data) = some 2 ∧
    firstOcc (("Returns").data) (("X Easy 30 Day Returns Y").data) = some 14 ∧
    specMinCut (("X Easy 30 Day Returns Y").data) = ("X ").data ∧
    truncateDesc (("X Easy 30 Day Returns Y").data) = ("X Easy 30 Day ").data ∧
    truncateDesc (("X Easy 30 Day Returns Y").data) ≠
      specMinCut (("X Easy 30 Day Returns Y").data) := by
  refine ⟨by decide, by decide, by decide, by decide, by decide⟩

/-- Claim C1, amended: the truncation is applied marker-by-marker in list
order, each marker searched in the already-shortened text; the result is
always a prefix of the input in which no marker occurs, and on the claim's
own example (`Shipping` at offset 10, `### Care` at offset 50) the text is
truncated at offset 10, not 50. -/
theorem C1_sequential_truncation :
    (∀ d, truncateDesc d <+: d) ∧
    (∀ d, ∀ m ∈ sections_to_remove, ¬ m <:+: truncateDesc d) ∧
    firstOcc (("Shipping").data) exampleDescC1 = some 10 ∧
    firstOcc (("### Care").data) exampleDescC1 = some 50 ∧
    truncateDesc exampleDescC1 = List.replicate 10 'a' ∧
    clean_description exampleDescC1 = List.replicate 10 'a' := by
  refine ⟨truncateDesc_isPre, ?_, by decide, by decide, by decide, by decide⟩
  intro d m hm
  exact not_infix_truncateDesc d m hm

/-- Witness for C1: the amended theorem applied at a concrete description and
marker. -/
theorem C1_sequential_truncation_w :
    (("Reviews").data ∈ sections_to_remove) ∧
    ¬ ("Reviews").data <:+: truncateDesc (("good Reviews here").data) :=
  ⟨by decide, C1_sequential_truncation.2.1 (("good Reviews here").data)
    (("Reviews").data) (by decide)⟩

/-- Claim C2: with a budget of 3 attempts, two 429 responses followed by a 200
yield the 200 to the caller after consuming all 3 attempt slots, and three
5xx responses yield no response after exactly 3 attempts. -/
theorem C2_retry_budget :
    (∀ r ra₀ ra₁ ra₂,
      r 0 = ApiResponse.ok 429 ra₀ → r 1 = ApiResponse.ok 429 ra₁ →
      r 2 = ApiResponse.ok 200 ra₂ →
      (make_request_with_retry r 3).1 = some 200 ∧
        (make_request_with_retry r 3).2.1 = 3) ∧
    (∀ r c₀ c₁ c₂ ra₀ ra₁ ra₂,
      r 0 = ApiResponse.ok c₀ ra₀ → r 1 = ApiResponse.ok c₁ ra₁ →
      r 2 = ApiResponse.ok c₂ ra₂ →
      500 ≤ c₀ → 500 ≤ c₁ → 500 ≤ c₂ →
      (make_request_with_retry r 3).1 = none ∧
        (make_request_with_retry r 3).2.1 = 3) := by
  constructor
  · intro r ra₀ ra₁ ra₂ h0 h1 h2
    simp [make_request_with_retry, retryLoop, h0, h1, h2]
  · intro r c₀ c₁ c₂ ra₀ ra₁ ra₂ h0 h1 h2 hc₀ hc₁ hc₂
    have n0 : c₀ ≠ 429 := by omega
    have n1 : c₁ ≠ 429 := by omega
    have n2 : c₂ ≠ 429 := by omega
    simp [make_request_with_retry, retryLoop, h0, h1, h2, n0, n1, n2, hc₀, hc₁, hc₂]

/-- Witness for C2: both parts applied to concrete response streams. -/
theorem C2_retry_budget_w :
    ((make_request_with_retry
        (fun n => if n = 0 then ApiResponse.ok 429 none
          else if n = 1 then ApiResponse.ok 429 (some 5)
          else ApiResponse.ok 200 none) 3).1 = some 200 ∧
      (make_request_with_retry
        (fun n => if n = 0 then ApiResponse.ok 429 none
          else if n = 1 then ApiResponse.ok 429 (some 5)
          else ApiResponse.ok 200 none) 3).2.1 = 3) ∧
    ((make_request_with_retry (fun _ => ApiResponse.ok 503 none) 3).1 = none ∧
      (make_request_with_retry (fun _ => ApiResponse.ok 503 none) 3).2.1 = 3) :=
  ⟨C2_retry_budget.1 _ none (some 5) none rfl rfl rfl,
   C2_retry_budget.2 _ 503 503 503 none none none rfl rfl rfl
     (by decide) (by decide) (by decide)⟩

/-- Claim C3, counterexample: the fallback discovery path keeps query strings
and does not absolutize URLs that lack a leading slash.  With every
collection page empty and the fallback returning `x/products/y?q=1`, the
discovery phase returns that URL verbatim: it retains its query string and is
not absolute. -/
theorem C3_counterexample :
    discover_product_urls (List.replicate 12 []) [("x/products/y?q=1").data] =
      [("x/products/y?q=1").data] ∧
    ('?') ∈ ("x/products/y?q=1").data ∧
    ¬ ("https://").data <+: ("x/products/y?q=1").data := by
  refine ⟨by decide, by decide, by decide⟩

/-- Claim C3, amended, stated per discovery path: when the collection scrape
yields anything, every URL the discovery phase returns contains no `?` and is
the query-stripped form of a URL containing `/products/`; when it yields
nothing, the discovery phase returns exactly the fallback output, and every
fallback URL contains `/products/` (but may keep its query string and need
not be absolute). -/
theorem C3_discovery_urls :
    ∀ pages fallback,
      (pages.foldl collectUrls [] ≠ [] →
        ∀ u ∈ discover_product_urls pages fallback,
          ('?') ∉ u ∧ ∃ v, PRODUCTS_SEG <:+: v ∧ u = stripQuery v) ∧
      (pages.foldl collectUrls [] = [] →
        discover_product_urls pages fallback = discover_fallback_urls fallback) ∧
      (∀ u ∈ discover_fallback_urls fallback, PRODUCTS_SEG <:+: u) := by
  intro pages fallback
  refine ⟨?_, ?_, ?_⟩
  · intro hcoll u hu
    rw [discover_product_urls, if_neg hcoll] at hu
    obtain ⟨v, hv, rfl⟩ := dedupStrip_mem hu
    rcases pagesFold_mem hv with hin | hseg
    · simp at hin
    · exact ⟨stripQuery_no_qmark v, v, hseg, rfl⟩
  · intro hcoll
    rw [discover_product_urls, if_pos hcoll]
  · intro u hu
    unfold discover_fallback_urls at hu
    rcases fallbackFold_mem hu with hin | hseg
    · simp at hin
    · exact hseg

/-- Witness for C3: the amended theorem applied at a concrete discovery run
(main path strips the query from `/products/a?x=1`; the fallback URL
`/products/b` contains the product segment). -/
theorem C3_discovery_urls_w :
    ([[("/products/a?x=1").data]].foldl collectUrls [] ≠ []) ∧
    (BASE_URL ++ ("/products/a").data) ∈
      discover_product_urls [[("/products/a?x=1").data]] [("/products/b").data] ∧
    (('?') ∉ (BASE_URL ++ ("/products/a").data) ∧
      ∃ v, PRODUCTS_SEG <:+: v ∧
        (BASE_URL ++ ("/products/a").data) = stripQuery v) ∧
    (BASE_URL ++ ("/products/b").data) ∈
      discover_fallback_urls [("/products/b").data] ∧
    PRODUCTS_SEG <:+: (BASE_URL ++ ("/products/b").data) :=
  ⟨by decide, by decide,
   (C3_discovery_urls [[("/products/a?x=1").data]] [("/products/b").data]).1
     (by decide) _ (by decide),
   by decide,
   (C3_discovery_urls [[("/products/a?x=1").data]] [("/products/b").data]).2.2
     _ (by decide)⟩

/-- Claim C4: keyword extraction returns exactly the vocabulary entries whose
lowercase form occurs in the lowercase text, in vocabulary order; text with
`HANDMADE` and `organic` yields `["Handmade", "Organic"]`. -/
theorem C4_extract_keywords :
    (∀ t, List.Sublist (extract_keywords t) KEYWORDS) ∧
    (∀ t k, k ∈ extract_keywords t ↔ k ∈ KEYWORDS ∧ pyLower k <:+: pyLower t) ∧
    extract_keywords (("Item HANDMADE from organic cotton").data) =
      [("Handmade").data, ("Organic").data] :=
  ⟨extract_keywords_sublist, mem_extract_keywords, by decide⟩

/-- Witness for C4: the membership characterization applied at a concrete
text and keyword. -/
theorem C4_extract_keywords_w :
    (("Handmade").data ∈ KEYWORDS ∧
      pyLower (("Handmade").data) <:+: pyLower (("HANDMADE!").data)) ∧
    ("Handmade").data ∈ extract_keywords (("HANDMADE!").data) :=
  ⟨by decide, (C4_extract_keywords.2.1 (("HANDMADE!").data) (("Handmade").data)).mpr
    (by decide)⟩

/-- Claim C5: the displayed price is `"<current> (was <original>)"` exactly
when a non-empty original price differing from the current price is present,
and the current price alone otherwise. -/
theorem C5_price_display :
    (∀ current o, o ≠ [] → o ≠ current →
      format_price current (some o) = current ++ (" (was ").data ++ o ++ [')']) ∧
    (∀ current, format_price current none = current) ∧
    (∀ current, format_price current (some []) = current) ∧
    (∀ current, format_price current (some current) = current) ∧
    format_price (("$100").data) (some (("$150").data)) = ("$100 (was $150)").data := by
  refine ⟨?_, ?_, ?_, ?_, by decide⟩
  · intro current o h1 h2
    simp only [format_price]
    rw [if_pos ⟨h1, h2⟩]
  · intro current
    rfl
  · intro current
    simp [format_price]
  · intro current
    simp [format_price]

/-- Witness for C5: the discounted case applied at the example from the claim. -/
theorem C5_price_display_w :
    ((("$150").data ≠ [] ∧ ("$150").data ≠ ("$100").data)) ∧
    format_price (("$100").data) (some (("$150").data)) =
      ("$100").data ++ (" (was ").data ++ ("$150").data ++ [')'] :=
  ⟨⟨by decide, by decide⟩,
   C5_price_display.1 (("$100").data) (("$150").data) (by decide) (by decide)⟩

/-- Claim C6: filename cleaning strips characters outside `[\w\s-]`, collapses
hyphen/whitespace runs to single underscores, truncates to 50 characters
(`"Rio Throw (Grey) #2"` maps to `Rio_Throw_Grey_2`), and maps an empty name
to the fixed placeholder; consequently every output is at most 50 characters
of word characters and underscores. -/
theorem C6_clean_filename :
    clean_filename (("Rio Throw (Grey) #2").data) = ("Rio_Throw_Grey_2").data ∧
    clean_filename [] = ("unknown_product").data ∧
    (∀ name, (clean_filename name).length ≤ 50) ∧
    (∀ name, ∀ c ∈ clean_filename name, isWordChar c = true) := by
  refine ⟨by decide, by decide, ?_, ?_⟩
  · intro name
    by_cases hn : name = []
    · subst hn
      decide
    · rw [clean_filename, if_neg hn, List.length_take]
      exact min_le_left _ _
  · intro name c hc
    by_cases hn : name = []
    · subst hn
      have hall : ∀ x ∈ ("unknown_product").data, isWordChar x = true := by decide
      rw [clean_filename] at hc
      exact hall c (by simpa using hc)
    · rw [clean_filename, if_neg hn] at hc
      have hc' := List.take_subset _ _ hc
      rcases collapseGo_chars _ false c hc' with rfl | ⟨hmem, hsp, hhy⟩
      · decide
      · have hkeep := (List.mem_filter.mp hmem).2
        simp only [Bool.or_eq_true, decide_eq_true_eq] at hkeep
        rcases hkeep with (hw | hs) | hh
        · exact hw
        · exact absurd hs (by simp [hsp])
        · exact absurd hh hhy

/-- Witness for C6: the character invariant applied at a concrete name. -/
theorem C6_clean_filename_w :
    ('a' ∈ clean_filename (("ab").data)) ∧ isWordChar 'a' = true :=
  ⟨by decide, C6_clean_filename.2.2.2 (("ab").data) 'a' (by decide)⟩

/-- Claim C7: a response whose status is neither 429 nor 5xx (for example a
404) is returned to the caller on the attempt it arrives, with no sleeping
and no further attempts consumed, whatever the remaining responses would
be. -/
theorem C7_immediate_return :
    (∀ r k fuel c ra, 0 < fuel → r k = ApiResponse.ok c ra → c ≠ 429 → ¬ 500 ≤ c →
      retryLoop r k fuel = (some c, 1, 0)) ∧
    (∀ r c ra n, 0 < n → r 0 = ApiResponse.ok c ra → c ≠ 429 → ¬ 500 ≤ c →
      make_request_with_retry r n = (some c, 1, 0)) :=
  ⟨fun r k fuel c ra hf hr h1 h2 => retryLoop_returns_now r k fuel c ra hf hr h1 h2,
   fun r c ra n hn hr h1 h2 => retryLoop_returns_now r 0 n c ra hn hr h1 h2⟩

/-- Witness for C7: a 404 on the first attempt is returned immediately. -/
theorem C7_immediate_return_w :
    make_request_with_retry (fun _ => ApiResponse.ok 404 none) 3 = (some 404, 1, 0) :=
  C7_immediate_return.2 (fun _ => ApiResponse.ok 404 none) 404 none 3
    (by decide) rfl (by decide) (by decide)

/-- Claim C8, counterexample: `clean_description` is not idempotent on every
marker-free description.  `"Ships\nX"` contains no marker, but one cleaning
pass turns its newline into a space, creating the marker `"Ships "`, so the
second pass truncates everything. -/
theorem C8_counterexample :
    noMarkerIn (("Ships\nX").data) = true ∧
    clean_description (clean_description (("Ships\nX").data)) ≠
      clean_description (("Ships\nX").data) := by
  refine ⟨by decide, by decide⟩

/-- Claim C8, amended: `clean_description` is idempotent on every description
whose cleaned form contains no boilerplate marker (whitespace normalization
can manufacture a marker out of marker-free input, so the hypothesis must
constrain the cleaned text). -/
theorem C8_clean_description_idem :
    ∀ d, noMarkerIn (clean_description d) = true →
      clean_description (clean_description d) = clean_description d :=
  clean_description_idem_of_no_marker

/-- Witness for C8: the amended theorem applied at a concrete description. -/
theorem C8_clean_description_idem_w :
    noMarkerIn (clean_description (("hello there").data)) = true ∧
    clean_description (clean_description (("hello there").data)) =
      clean_description (("hello there").data) :=
  ⟨by decide, C8_clean_description_idem (("hello there").data) (by decide)⟩

/-- Claim C9, counterexample: on an empty product list the converter returns
before writing anything (`if not products: return`), so no CSV — in
particular not the claimed header-only CSV — is produced. -/
theorem C9_counterexample :
    convert_citizenry_json_to_csv [] ≠ some [converter_fieldnames] ∧
    convert_citizenry_json_to_csv [] = none := by
  refine ⟨by decide, rfl⟩

/-- Claim C9, amended: for every non-empty product list the converter emits
one header row plus exactly one data row per product, in input order, and its
column set equals the CSV columns of the Export Writer, which are the scraper
record keys minus `Image Path`. -/
theorem C9_rows :
    ∀ products : List ProductJson, products ≠ [] →
      ∃ rows, convert_citizenry_json_to_csv products = some rows ∧
        rows.length = products.length + 1 ∧
        rows[0]? = some converter_fieldnames ∧
        (∀ i : Nat, rows[i + 1]? = (products[i]?).map rowOf) ∧
        converter_fieldnames = scraper_fieldnames ∧
        scraper_record_keys = scraper_fieldnames ++ [("Image Path").data] := by
  intro products hp
  refine ⟨converter_fieldnames :: products.map rowOf, ?_, by simp, by simp, ?_, by decide, by decide⟩
  · rw [convert_citizenry_json_to_csv,
      if_neg (by simpa [List.isEmpty_iff] using hp)]
  · intro i
    simp [List.getElem?_map]

/-- Witness for C9: the amended theorem applied at a one-product list. -/
theorem C9_rows_w :
    ([ProductJson.mk (("A").data) [] [] [] [] [] []] : List ProductJson) ≠ [] ∧
    (∃ rows,
      convert_citizenry_json_to_csv [ProductJson.mk (("A").data) [] [] [] [] [] []] =
        some rows ∧
      rows.length = [ProductJson.mk (("A").data) [] [] [] [] [] []].length + 1 ∧
      rows[0]? = some converter_fieldnames ∧
      (∀ i : Nat,
        rows[i + 1]? =
          ([ProductJson.mk (("A").data) [] [] [] [] [] []][i]?).map rowOf) ∧
      converter_fieldnames = scraper_fieldnames ∧
      scraper_record_keys = scraper_fieldnames ++ [("Image Path").data]) :=
  ⟨by simp, C9_rows [ProductJson.mk (("A").data) [] [] [] [] [] []] (by simp)⟩

/-- Claim C10, counterexample: `clean_price` is not idempotent: in
`" (was (was null) null)"` removing the inner occurrence of `" (was null)"`
re-creates the substring, so a second application removes more. -/
theorem C10_counterexample :
    clean_price (clean_price ((" (was (was null) null)").data)) ≠
      clean_price ((" (was (was null) null)").data) := by
  decide

/-- Claim C10, amended: `clean_price` maps the empty (falsy) string to itself,
removes all occurrences of `" (was null)"` in one left-to-right pass (not
only the first), and is idempotent on every price whose cleaned form no
longer contains the substring — removal can re-create the substring, so
unconditional idempotence fails. -/
theorem C10_clean_price :
    (clean_price [] = []) ∧
    (∀ p, ¬ (" (was null)").data <:+: clean_price p →
      clean_price (clean_price p) = clean_price p) ∧
    clean_price (("a (was null)b (was null)c").data) = ("abc").data := by
  refine ⟨rfl, ?_, by decide⟩
  intro p h
  by_cases hcp : clean_price p = []
  · rw [hcp]
    rfl
  · rw [clean_price_eq _ hcp, pyReplace_eq_self _ _ _ h]

/-- Witness for C10: the idempotence part applied at a concrete price. -/
theorem C10_clean_price_w :
    ¬ (" (was null)").data <:+: clean_price (("x (was null)").data) ∧
    clean_price (clean_price (("x (was null)").data)) =
      clean_price (("x (was null)").data) :=
  ⟨by decide, C10_clean_price.2.1 (("x (was null)").data) (by decide)⟩

end Ethio

-- sanity checks while developing
example : Ethio.clean_description ("hello\n\nworld Shipping info").data = ("hello world").data := by decide
example : Ethio.clean_price ("$10 (was null)").data = ("$10").data := by decide
example : Ethio.truncateDesc ("X Easy 30 Day Returns Y").data = ("X Easy 30 Day ").data := by decide
example : Ethio.clean_description ("Ships\nX").data = ("Ships X").data := by decide
example : Ethio.clean_description ("Ships X").data = [] := by decide
example :
    Ethio.make_request_with_retry
      (fun n => if n = 0 then .ok 429 none else if n = 1 then .ok 429 (some 5) else .ok 200 none) 3 =
    (some 200, 3, 35) := by decide
example :
    Ethio.make_request_with_retry (fun _ => .ok 503 none) 3 = (none, 3, 210) := by decide
example :
    Ethio.discover_product_urls [[("/products/rio?v=2").data], [("/products/rio?v=3").data]] [] =
    [Ethio.BASE_URL ++ ("/products/rio").data] := by decide
example :
    Ethio.discover_product_urls [[]] [("x/products/y?q=1").data] =
    [("x/products/y?q=1").data] := by decide
example :
    Ethio.extract_keywords ("Item HANDMADE from organic cotton").data =
    [("Handmade").data, ("Organic").data] := by decide
example : Ethio.clean_filename ("Rio Throw (Grey) #2").data = ("Rio_Throw_Grey_2").data := by decide
example :
    Ethio.format_price ("$100").data (some ("$150").data) = ("$100 (was $150)").data := by decide
example : Ethio.format_price ("$100").data (some ("$100").data) = ("$100").data := by decide
example : Ethio.format_price ("$100").data none = ("$100").data := by decide
example :
    Ethio.clean_price (" (was (was null) null)").data = (" (was null)").data := by decide
